import Mathlib

set_option maxRecDepth 100000

/-!
Verification development for the contract-intelligence core:
the Evidence Locator and Contract Auditor (`app/auditor.py`) and the
payment-terms and effective-date field extractors (`app/extractor.py`).

Texts are modelled as `List Char`.  The Python `re` patterns used by the
code are shallowly embedded by a small matcher whose candidate lists are
ordered by Python's backtracking priority (leftmost match, greedy
quantifiers first).  Character classes (`\s`, `\d`, `[A-Za-z]`) and
case-insensitive matching are modelled at the ASCII level, which covers
the character sets the patterns and the contract texts use.
-/

/-- Case-insensitive character comparison, as under `re.IGNORECASE`. -/
def ciEqCh (a b : Char) : Bool := a.toLower == b.toLower

/-- Predicate `ciPref s l`: the literal `s` matches at the head of `l`, case-insensitively. -/
def ciPref : List Char → List Char → Bool
  | [], _ => true
  | _ :: _, [] => false
  | a :: aa, b :: bb => ciEqCh a b && ciPref aa bb

/-- Python's `\s` class (ASCII part). -/
def isWsPy (c : Char) : Bool :=
  c == ' ' || c == '\t' || c == '\n' || c == '\r' || c == '\x0b' || c == '\x0c'

/-- Python's `.` (any character except a newline, no `DOTALL`). -/
def nonNl (c : Char) : Bool := !(c == '\n')

/-- The class `[^\n.]` of the payment-terms capture. -/
def capCls (c : Char) : Bool := !(c == '\n') && !(c == '.')

/-- The class `[:\s]` of the label separators. -/
def sepCls (c : Char) : Bool := c == ':' || isWsPy c

/-- The class `[A-Za-z]`. -/
def isAsciiLetter (c : Char) : Bool := ('a' ≤ c && c ≤ 'z') || ('A' ≤ c && c ≤ 'Z')

/-- The class `\d` (ASCII digits). -/
def isDigitCh (c : Char) : Bool := c.isDigit

/-- The class `[\d,]` of the dollar-amount patterns. -/
def digitComma (c : Char) : Bool := c.isDigit || c == ','

/-- Embeds `text[a:b]` as in Python slicing (clipped to the text bounds). -/
def listSlice (t : List Char) (a b : Nat) : List Char := (t.drop a).take (b - a)

/-- Length of the run of characters of class `f` starting at offset `p`. -/
def clsRun (f : Char → Bool) (t : List Char) (p : Nat) : Nat :=
  ((t.drop p).takeWhile f).length

/-- A matcher fragment: given the text and a start offset, the list of possible
end offsets, in Python backtracking priority order (preferred first). -/
abbrev Cmb := List Char → Nat → List Nat

/-- A case-insensitive literal, as produced by `re.escape` on a keyword. -/
def litC (s : List Char) : Cmb := fun t p =>
  if ciPref s (t.drop p) then [p + s.length] else []

/-- A greedy bounded repetition `X{lo,hi}` of a one-character class. -/
def repC (f : Char → Bool) (lo hi : Nat) : Cmb := fun t p =>
  if min hi (clsRun f t p) < lo then []
  else (List.range (min hi (clsRun f t p) - lo + 1)).map
    (fun i => p + (min hi (clsRun f t p) - i))

/-- A greedy `X+` of a one-character class. -/
def plusC (f : Char → Bool) : Cmb := fun t p =>
  (List.range (clsRun f t p)).map (fun i => p + (clsRun f t p - i))

/-- A greedy `X*` of a one-character class. -/
def starC (f : Char → Bool) : Cmb := fun t p =>
  (List.range (clsRun f t p + 1)).map (fun i => p + (clsRun f t p - i))

/-- A greedy option `X?`. -/
def optC (c : Cmb) : Cmb := fun t p => c t p ++ [p]

/-- Sequencing, with depth-first backtracking order. -/
def seqC (a b : Cmb) : Cmb := fun t p => (a t p).flatMap (b t)

/-- Alternation `X|Y`, left alternative preferred. -/
def altC (a b : Cmb) : Cmb := fun t p => a t p ++ b t p

/-- An exact repetition `X{n}` of a one-character class. -/
def exactC (f : Char → Bool) (n : Nat) : Cmb := repC f n n

/-- Scan start offsets `p, p+1, …` (fuelled); the first offset where the
matcher succeeds gives the match, with its preferred end. -/
def searchFromAux (c : Cmb) (t : List Char) : Nat → Nat → Option (Nat × Nat)
  | 0, _ => none
  | f + 1, p =>
    match (c t p).head? with
    | some e => some (p, e)
    | none => searchFromAux c t f (p + 1)

/-- Embeds `re.search` semantics starting the scan at offset `s`. -/
def searchFrom (c : Cmb) (t : List Char) (s : Nat) : Option (Nat × Nat) :=
  searchFromAux c t (t.length + 1 - s) s

/-- Embeds `re.search` over the whole text: leftmost match, preferred end. -/
def searchC (c : Cmb) (t : List Char) : Option (Nat × Nat) := searchFrom c t 0

/-- Embeds `re.finditer` semantics (fuelled): non-overlapping matches, left to right,
advancing past each match (by one position after a zero-width match). -/
def allMatchesAux (c : Cmb) (t : List Char) : Nat → Nat → List (Nat × Nat)
  | 0, _ => []
  | f + 1, s =>
    match searchFrom c t s with
    | none => []
    | some (p, e) => (p, e) :: allMatchesAux c t f (if e ≤ p then p + 1 else e)

/-- All matches of a matcher over the text, as `re.finditer` lists them. -/
def allMatchesC (c : Cmb) (t : List Char) : List (Nat × Nat) :=
  allMatchesAux c t (t.length + 1) 0

/-- The evidence pattern `.{0,100}<keyword>.{0,100}` built by `_find_evidence`
(the keyword is `re.escape`d, hence a literal). -/
def evCmb (kw : List Char) : Cmb :=
  seqC (seqC (repC nonNl 0 100) (litC kw)) (repC nonNl 0 100)

/-- One entry of the page table (`pages_data`); the page text itself is not
consulted by the auditor. -/
structure Page where
  page_number : Nat
  char_start : Nat
  char_end : Nat
  deriving DecidableEq

/-- An evidence span as built by `_find_evidence`. -/
structure EvidenceSpan where
  page : Nat
  char_start : Nat
  char_end : Nat
  excerpt : List Char
  deriving DecidableEq

/-- Containing page of a character offset: linear scan with `break`,
page 1 if no entry contains the offset. -/
def pageOf (pages : List Page) (cs : Nat) : Nat :=
  match pages.find? (fun pg => pg.char_start ≤ cs && cs < pg.char_end) with
  | some pg => pg.page_number
  | none => 1

/-- The evidence dict built for one regex match. -/
def mkEvidence (t : List Char) (pages : List Page) (m : Nat × Nat) : EvidenceSpan :=
  ⟨pageOf pages m.1, m.1, m.2, listSlice t m.1 m.2⟩

/-- The `finditer` match list of the evidence pattern for one keyword. -/
def kwMatches (t : List Char) (kw : List Char) : List (Nat × Nat) :=
  allMatchesC (evCmb kw) t

/-- The keyword loop of `_find_evidence`: at most the first 2 matches of each
keyword, stopping at the first keyword that yields any evidence. -/
def findEvAux (t : List Char) (pages : List Page) : List (List Char) → List EvidenceSpan
  | [] => []
  | kw :: rest =>
    if (((kwMatches t kw).take 2).map (mkEvidence t pages)).isEmpty then
      findEvAux t pages rest
    else ((kwMatches t kw).take 2).map (mkEvidence t pages)

/-- Embeds `ContractAuditor._find_evidence`. -/
def _find_evidence (t : List Char) (pages : List Page) (kws : List (List Char)) :
    List EvidenceSpan :=
  (findEvAux t pages kws).take 3

example : _find_evidence "the liability cap".data [] ["liability".data] =
    [⟨1, 0, 17, "the liability cap".data⟩] := by decide

example : _find_evidence "risk\nthe liability cap\nmore".data [] ["liability".data] =
    [⟨1, 5, 22, "the liability cap".data⟩] := by decide

/-! ## Contract auditor (`app/auditor.py`) -/

/-- The two auditor-relevant settings of `app/config.py`, at their declared
defaults (`liability_cap_threshold: int = 50000`,
`auto_renewal_notice_days: int = 30`). -/
structure Settings where
  liability_cap_threshold : Nat
  auto_renewal_notice_days : Int
  deriving DecidableEq

def settings : Settings := ⟨50000, 30⟩

/-- Embeds `ContractAuditor.__init__` copies the two thresholds from the settings. -/
structure ContractAuditor where
  liability_threshold : Nat
  renewal_notice_threshold : Int
  deriving DecidableEq

def mkAuditor (s : Settings) : ContractAuditor :=
  ⟨s.liability_cap_threshold, s.auto_renewal_notice_days⟩

def defaultAuditor : ContractAuditor := mkAuditor settings

/-- The `auto_renewal` sub-dict of the extraction data (`models.AutoRenewal`). -/
structure AutoRenewalD where
  ar_exists : Bool
  notice_period_days : Option Int
  deriving DecidableEq

/-- The `indemnity` sub-dict of the extraction data (`models.Indemnity`). -/
structure IndemnityD where
  ind_exists : Bool
  summary : Option String
  deriving DecidableEq

/-- The `liability_cap` sub-dict of the extraction data
(`models.LiabilityCap`); the auditor's claims only involve integral
amounts, so the float amount is modelled at integer values. -/
structure LiabilityCapD where
  amount : Option Nat
  currency : Option String
  deriving DecidableEq

/-- The keys of `extraction_data` that `audit_contract`'s checks read
(`auto_renewal`, `indemnity`, `liability_cap`); `none` models a missing or
null key, for which `dict.get` yields a falsy value. -/
structure ExtractionData where
  auto_renewal : Option AutoRenewalD
  indemnity : Option IndemnityD
  liability_cap : Option LiabilityCapD
  deriving DecidableEq

inductive SeverityEnum where
  | HIGH | MEDIUM | LOW
  deriving DecidableEq

/-- Embeds `models.AuditFinding`. -/
structure AuditFinding where
  id : String
  severity : SeverityEnum
  type : String
  summary : String
  evidence : List EvidenceSpan
  deriving DecidableEq

/-- Embeds `f"FIND-{n:03d}"`. -/
def findId (n : Nat) : String :=
  "FIND-" ++ String.mk (List.replicate (3 - (toString n).length) '0') ++ toString n

/-- Python truthiness of an optional integer (`None` and `0` are falsy). -/
def truthyInt : Option Int → Bool
  | none => false
  | some v => v != 0

/-- Embeds `self.renewal_notice_threshold` comparison value of a notice period. -/
def noticeVal : Option Int → Int
  | none => 0
  | some v => v

/-- Python `f"{n:,.0f}"` on a nonnegative integral amount: decimal digits
with thousands separators and no decimal places. -/
def commaRev : List Char → Nat → List Char
  | [], _ => []
  | c :: cs, k => if k = 3 then ',' :: c :: commaRev cs 1 else c :: commaRev cs (k + 1)

def fmtComma (n : Nat) : String :=
  String.mk (commaRev (toString n).data.reverse 0).reverse

example : fmtComma 10000 = "10,000" := by decide
example : fmtComma 50000 = "50,000" := by decide

/-- Keyword literals used by the checks (arguments to `_find_evidence`). -/
def kwAutoRenew : List Char := "auto-renew".data
def kwAutomaticRenewal : List Char := "automatic renewal".data
def kwUnlimitedLiability : List Char := "unlimited liability".data
def kwWithoutLimit : List Char := "without limit".data
def kwIndemnif : List Char := "indemnif".data
def kwHoldHarmless : List Char := "hold harmless".data
def kwTerminat : List Char := "terminat".data
def kwLiability : List Char := "liability".data
def kwLimit : List Char := "limit".data

/-- Embeds `ContractAuditor._check_auto_renewal`. -/
def _check_auto_renewal (a : ContractAuditor) (t : List Char) (ed : ExtractionData)
    (pages : List Page) : List AuditFinding :=
  match ed.auto_renewal with
  | none => []
  | some ar =>
    if ar.ar_exists then
      if truthyInt ar.notice_period_days &&
          decide (noticeVal ar.notice_period_days < a.renewal_notice_threshold) then
        [⟨findId 1, .HIGH, "auto_renewal",
          "Auto-renewal with " ++ toString (noticeVal ar.notice_period_days) ++
            " days notice (less than " ++ toString a.renewal_notice_threshold ++ " days)",
          _find_evidence t pages [kwAutoRenew, kwAutomaticRenewal]⟩]
      else if !truthyInt ar.notice_period_days then
        [⟨findId 1, .HIGH, "auto_renewal",
          "Auto-renewal clause with unclear notice period",
          _find_evidence t pages [kwAutoRenew, kwAutomaticRenewal]⟩]
      else []
    else []

/-- Embeds `r'unlimited\s+liability'`. -/
def unlim1 : Cmb := seqC (seqC (litC "unlimited".data) (plusC isWsPy)) (litC "liability".data)

/-- Embeds `r'liability.*without\s+limit'`. -/
def unlim2 : Cmb :=
  seqC (seqC (seqC (seqC (litC "liability".data) (starC nonNl)) (litC "without".data))
    (plusC isWsPy)) (litC "limit".data)

/-- Embeds `r'no\s+limitation\s+on\s+liability'`. -/
def unlim3 : Cmb :=
  seqC (seqC (seqC (seqC (seqC (seqC (litC "no".data) (plusC isWsPy))
    (litC "limitation".data)) (plusC isWsPy)) (litC "on".data)) (plusC isWsPy))
    (litC "liability".data)

/-- Does some pattern of `unlimited_patterns` match the full text? -/
def unlimitedMatch (t : List Char) : Bool :=
  (searchC unlim1 t).isSome || (searchC unlim2 t).isSome || (searchC unlim3 t).isSome

/-- The local `findings` list of `_check_unlimited_liability` after its
pattern loop: the loop appends at most one finding, since it `break`s after
the first matching pattern. -/
def unlimLoop (t : List Char) (pages : List Page) : List AuditFinding :=
  if unlimitedMatch t then
    [⟨findId 1, .HIGH, "unlimited_liability",
      "Contract contains unlimited liability clause",
      _find_evidence t pages [kwUnlimitedLiability, kwWithoutLimit]⟩]
  else []

/-- Embeds `ContractAuditor._check_unlimited_liability`: the missing-cap branch is
guarded by `not liability_cap and not findings`. -/
def _check_unlimited_liability (t : List Char) (ed : ExtractionData)
    (pages : List Page) : List AuditFinding :=
  if ed.liability_cap.isNone && (unlimLoop t pages).isEmpty then
    if (searchC (litC "liability".data) t).isSome then
      unlimLoop t pages ++ [⟨findId ((unlimLoop t pages).length + 1), .HIGH,
        "unlimited_liability", "No liability cap specified in contract",
        (_find_evidence t pages [kwLiability]).take 1⟩]
    else unlimLoop t pages
  else unlimLoop t pages

/-- Embeds `r'indemnif(?:y|ication).*all\s+claims'`. -/
def broad1 : Cmb :=
  seqC (seqC (seqC (seqC (seqC (litC "indemnif".data)
    (altC (litC "y".data) (litC "ication".data))) (starC nonNl)) (litC "all".data))
    (plusC isWsPy)) (litC "claims".data)

/-- Embeds `r'indemnif(?:y|ication).*any\s+and\s+all'`. -/
def broad2 : Cmb :=
  seqC (seqC (seqC (seqC (seqC (seqC (seqC (litC "indemnif".data)
    (altC (litC "y".data) (litC "ication".data))) (starC nonNl)) (litC "any".data))
    (plusC isWsPy)) (litC "and".data)) (plusC isWsPy)) (litC "all".data)

/-- Embeds `r'hold\s+harmless.*all\s+claims'`. -/
def broad3 : Cmb :=
  seqC (seqC (seqC (seqC (seqC (seqC (litC "hold".data) (plusC isWsPy))
    (litC "harmless".data)) (starC nonNl)) (litC "all".data)) (plusC isWsPy))
    (litC "claims".data)

/-- Does some pattern of `broad_patterns` match the full text? -/
def broadMatch (t : List Char) : Bool :=
  (searchC broad1 t).isSome || (searchC broad2 t).isSome || (searchC broad3 t).isSome

/-- Embeds `ContractAuditor._check_broad_indemnity` (guarded by `indemnity.exists`;
the pattern loop `break`s after the first matching pattern). -/
def _check_broad_indemnity (t : List Char) (ed : ExtractionData)
    (pages : List Page) : List AuditFinding :=
  match ed.indemnity with
  | none => []
  | some ind =>
    if ind.ind_exists then
      if broadMatch t then
        [⟨findId 1, .MEDIUM, "broad_indemnity",
          "Indemnity clause covers broad scope (all claims)",
          _find_evidence t pages [kwIndemnif, kwHoldHarmless]⟩]
      else []
    else []

/-- Embeds `r'terminat(?:e|ion).*for\s+convenience'`. -/
def conv1 : Cmb :=
  seqC (seqC (seqC (seqC (litC "terminat".data)
    (altC (litC "e".data) (litC "ion".data))) (starC nonNl)) (litC "for".data))
    (seqC (plusC isWsPy) (litC "convenience".data))

/-- Embeds `r'terminat(?:e|ion).*without\s+cause'`. -/
def conv2 : Cmb :=
  seqC (seqC (seqC (seqC (litC "terminat".data)
    (altC (litC "e".data) (litC "ion".data))) (starC nonNl)) (litC "without".data))
    (seqC (plusC isWsPy) (litC "cause".data))

/-- Embeds `r'either\s+party\s+may\s+terminat(?:e|ion)'`. -/
def conv3 : Cmb :=
  seqC (seqC (seqC (seqC (seqC (seqC (litC "either".data) (plusC isWsPy))
    (litC "party".data)) (plusC isWsPy)) (litC "may".data)) (plusC isWsPy))
    (seqC (litC "terminat".data) (altC (litC "e".data) (litC "ion".data)))

/-- Embeds `any(re.search(p, full_text, re.IGNORECASE) for p in convenience_patterns)`. -/
def hasConvenience (t : List Char) : Bool :=
  (searchC conv1 t).isSome || (searchC conv2 t).isSome || (searchC conv3 t).isSome

/-- Embeds `ContractAuditor._check_termination_convenience`. -/
def _check_termination_convenience (t : List Char) (pages : List Page) :
    List AuditFinding :=
  if !hasConvenience t then
    [⟨findId 1, .MEDIUM, "missing_termination_convenience",
      "Contract lacks termination for convenience clause",
      (_find_evidence t pages [kwTerminat]).take 1⟩]
  else []

/-- Embeds `ContractAuditor._check_liability_cap` (a falsy amount — `None` or `0` —
produces no finding). -/
def _check_liability_cap (a : ContractAuditor) (t : List Char) (ed : ExtractionData)
    (pages : List Page) : List AuditFinding :=
  match ed.liability_cap with
  | none => []
  | some cap =>
    match cap.amount with
    | none => []
    | some amt =>
      if amt != 0 && decide (amt < a.liability_threshold) then
        [⟨findId 1, .LOW, "low_liability_cap",
          "Liability cap $" ++ fmtComma amt ++ " is below recommended threshold $" ++
            fmtComma a.liability_threshold,
          _find_evidence t pages [kwLiability, kwLimit]⟩]
      else []

/-- Embeds `ContractAuditor.audit_contract`: the five checks in order, concatenated. -/
def audit_contract (a : ContractAuditor) (t : List Char) (ed : ExtractionData)
    (pages : List Page) : List AuditFinding :=
  _check_auto_renewal a t ed pages ++
    _check_unlimited_liability t ed pages ++
    _check_broad_indemnity t ed pages ++
    _check_termination_convenience t pages ++
    _check_liability_cap a t ed pages

/-! ## Field extractor (`app/extractor.py`): payment terms -/

/-- Python `str.strip()` (ASCII whitespace). -/
def pyStrip (s : List Char) : List Char :=
  ((s.dropWhile isWsPy).reverse.dropWhile isWsPy).reverse

/-- The part of `r'payment terms?[:\s]+([^\n.]{10,100})'` before the capture
group: the literal label, an optional `s`, and at least one `[:\s]`. -/
def pay1Pre : Cmb :=
  seqC (seqC (litC "payment term".data) (optC (litC "s".data))) (plusC sepCls)

/-- The capture group `([^\n.]{10,100})` of the labeled payment pattern. -/
def pay1Cap : Cmb := repC capCls 10 100

/-- Match of the labeled payment pattern at offset `p`: the backtracking
priority runs over the prefix candidates and takes the greedy capture end;
returns `(capture start, match end)` — the capture is the final element of
the pattern, so the whole match ends where the capture ends. -/
def pay1At (t : List Char) (p : Nat) : Option (Nat × Nat) :=
  (pay1Pre t p).findSome? fun q =>
    match (pay1Cap t q).head? with
    | some e => some (q, e)
    | none => none

/-- Leftmost match of the labeled payment pattern: `(start, capture start,
end)`. -/
def pay1SearchAux (t : List Char) : Nat → Nat → Option (Nat × Nat × Nat)
  | 0, _ => none
  | f + 1, p =>
    match pay1At t p with
    | some (q, e) => some (p, q, e)
    | none => pay1SearchAux t f (p + 1)

def pay1Search (t : List Char) : Option (Nat × Nat × Nat) :=
  pay1SearchAux t (t.length + 1) 0

/-- Embeds `r'net\s+\d+\s+days?'`. -/
def pay2 : Cmb :=
  seqC (seqC (seqC (seqC (seqC (litC "net".data) (plusC isWsPy)) (plusC isDigitCh))
    (plusC isWsPy)) (litC "day".data)) (optC (litC "s".data))

/-- Embeds `r'\$[\d,]+(?:\.\d{2})?\s+(?:per|monthly|annually)'`. -/
def pay3 : Cmb :=
  seqC (seqC (seqC (seqC (litC "$".data) (plusC digitComma))
    (optC (seqC (litC ".".data) (exactC isDigitCh 2)))) (plusC isWsPy))
    (altC (litC "per".data) (altC (litC "monthly".data) (litC "annually".data)))

/-- Embeds `FieldExtractor._extract_payment_terms`: the three patterns in order,
first match wins, and the code returns `match.group(0).strip()` — the whole
matched text — for every pattern, the labeled one included. -/
def _extract_payment_terms (t : List Char) : Option (List Char) :=
  match pay1Search t with
  | some (p, _, e) => some (pyStrip (listSlice t p e))
  | none =>
    match searchC pay2 t with
    | some (p, e) => some (pyStrip (listSlice t p e))
    | none =>
      match searchC pay3 t with
      | some (p, e) => some (pyStrip (listSlice t p e))
      | none => none

/-! ## Field extractor: effective date -/

/-- The prefix of `r'effective\s+(?:date|as\s+of)[:\s]+(…)'` before its
capture group. -/
def d1pre : Cmb :=
  seqC (seqC (seqC (litC "effective".data) (plusC isWsPy))
    (altC (litC "date".data)
      (seqC (seqC (litC "as".data) (plusC isWsPy)) (litC "of".data))))
    (plusC sepCls)

/-- The shared capture group `([A-Za-z]+\s+\d{1,2},?\s+\d{4})` of the first
two date patterns. -/
def dCap : Cmb :=
  seqC (seqC (seqC (seqC (plusC isAsciiLetter) (plusC isWsPy))
    (repC isDigitCh 1 2)) (optC (litC ",".data)))
    (seqC (plusC isWsPy) (exactC isDigitCh 4))

/-- The prefix of `r'dated\s+(?:as\s+of\s+)?(…)'` before its capture group. -/
def d2pre : Cmb :=
  seqC (seqC (litC "dated".data) (plusC isWsPy))
    (optC (seqC (seqC (seqC (litC "as".data) (plusC isWsPy)) (litC "of".data))
      (plusC isWsPy)))

/-- Leftmost match of a pattern of the shape `prefix(capture)` whose capture
ends the match: `(start, capture start, end)`. -/
def capSearchAux (pre cap : Cmb) (t : List Char) : Nat → Nat → Option (Nat × Nat × Nat)
  | 0, _ => none
  | f + 1, p =>
    match (pre t p).findSome? (fun q =>
        match (cap t q).head? with
        | some e => some (q, e)
        | none => none) with
    | some (q, e) => some (p, q, e)
    | none => capSearchAux pre cap t f (p + 1)

def capSearch (pre cap : Cmb) (t : List Char) : Option (Nat × Nat × Nat) :=
  capSearchAux pre cap t (t.length + 1) 0

/-- Embeds `r'(\d{1,2}/\d{1,2}/\d{4})'` (the capture is the whole match). -/
def d3cmb : Cmb :=
  seqC (seqC (seqC (seqC (repC isDigitCh 1 2) (litC "/".data)) (repC isDigitCh 1 2))
    (litC "/".data)) (exactC isDigitCh 4)

/-- Embeds `r'(\d{4}-\d{2}-\d{2})'` (the capture is the whole match). -/
def d4cmb : Cmb :=
  seqC (seqC (seqC (seqC (exactC isDigitCh 4) (litC "-".data)) (exactC isDigitCh 2))
    (litC "-".data)) (exactC isDigitCh 2)

/-- Embeds `match.group(1)` of the first date pattern, if it matches. -/
def datePat1 (t : List Char) : Option (List Char) :=
  (capSearch d1pre dCap t).map fun m => listSlice t m.2.1 m.2.2

/-- Embeds `match.group(1)` of the second date pattern, if it matches. -/
def datePat2 (t : List Char) : Option (List Char) :=
  (capSearch d2pre dCap t).map fun m => listSlice t m.2.1 m.2.2

/-- Embeds `match.group(1)` of the third date pattern, if it matches. -/
def datePat3 (t : List Char) : Option (List Char) :=
  (searchC d3cmb t).map fun m => listSlice t m.1 m.2

/-- Embeds `match.group(1)` of the fourth date pattern, if it matches. -/
def datePat4 (t : List Char) : Option (List Char) :=
  (searchC d4cmb t).map fun m => listSlice t m.1 m.2

/-! `datetime.strptime` over the six formats of `_parse_date`, with
`strftime("%Y-%m-%d")` rendering.  `strptime` requires the whole string to
match and `datetime()` validates the calendar date (leap years included);
an invalid date makes the format fail, which `_parse_date` turns into
trying the next format. -/

def digitRun (s : List Char) : Nat := (s.takeWhile isDigitCh).length

def wsRun (s : List Char) : Nat := (s.takeWhile isWsPy).length

def natOfDs (s : List Char) : Nat := s.foldl (fun a c => 10 * a + (c.toNat - 48)) 0

def isLeap (y : Nat) : Bool := (y % 4 == 0 && y % 100 != 0) || y % 400 == 0

def daysInMonth (y m : Nat) : Nat :=
  if m = 2 then (if isLeap y then 29 else 28)
  else if m = 4 ∨ m = 6 ∨ m = 9 ∨ m = 11 then 30
  else 31

/-- The dates `datetime(y, m, d)` accepts. -/
def dateOk (y m d : Nat) : Bool :=
  1 ≤ y && y ≤ 9999 && 1 ≤ m && m ≤ 12 && 1 ≤ d && d ≤ daysInMonth y m

def mkDate (y m d : Nat) : Option (Nat × Nat × Nat) :=
  if dateOk y m d then some (y, m, d) else none

/-- The English month names `%B` recognises (no name is a prefix of
another, so the alternation order of `strptime`'s compiled pattern is
immaterial). -/
def monthNames : List (Nat × List Char) :=
  [(1, "january".data), (2, "february".data), (3, "march".data),
   (4, "april".data), (5, "may".data), (6, "june".data), (7, "july".data),
   (8, "august".data), (9, "september".data), (10, "october".data),
   (11, "november".data), (12, "december".data)]

/-- Consume `%B`: a case-insensitive full month name. -/
def takeMonth (s : List Char) : Option (Nat × List Char) :=
  monthNames.findSome? fun nm =>
    if ciPref nm.2 s then some (nm.1, s.drop nm.2.length) else none

/-- Consume `%d` or `%m`: one or two digits; a run of three or more digits
makes every alternative of the compiled sub-pattern fail (the following
format character is never a digit in these formats), and out-of-range
values are rejected by `dateOk` just as by the sub-pattern plus
`datetime()`. -/
def take2or1 (s : List Char) : Option (Nat × List Char) :=
  let r := digitRun s
  if r = 1 ∨ r = 2 then some (natOfDs (s.take r), s.drop r) else none

/-- Consume `%Y`: exactly four digits. -/
def take4 (s : List Char) : Option (Nat × List Char) :=
  if 4 ≤ digitRun s then some (natOfDs (s.take 4), s.drop 4) else none

/-- Consume the `\s+` that whitespace in a `strptime` format compiles to. -/
def takeWs (s : List Char) : Option (List Char) :=
  let r := wsRun s
  if r = 0 then none else some (s.drop r)

/-- Consume one literal character of the format. -/
def takeLit (c : Char) : List Char → Option (List Char)
  | [] => none
  | x :: xs => if x == c then some xs else none

/-- Embeds `strptime(s, "%B %d, %Y")`. -/
def fmtBdCY (s : List Char) : Option (Nat × Nat × Nat) :=
  match takeMonth s with
  | none => none
  | some (m, s1) =>
    match takeWs s1 with
    | none => none
    | some s2 =>
      match take2or1 s2 with
      | none => none
      | some (d, s3) =>
        match takeLit ',' s3 with
        | none => none
        | some s4 =>
          match takeWs s4 with
          | none => none
          | some s5 =>
            match take4 s5 with
            | none => none
            | some (y, s6) => if s6.isEmpty then mkDate y m d else none

/-- Embeds `strptime(s, "%B %d %Y")`. -/
def fmtBdY (s : List Char) : Option (Nat × Nat × Nat) :=
  match takeMonth s with
  | none => none
  | some (m, s1) =>
    match takeWs s1 with
    | none => none
    | some s2 =>
      match take2or1 s2 with
      | none => none
      | some (d, s3) =>
        match takeWs s3 with
        | none => none
        | some s4 =>
          match take4 s4 with
          | none => none
          | some (y, s5) => if s5.isEmpty then mkDate y m d else none

/-- Embeds `strptime(s, "%m/%d/%Y")`. -/
def fmtMdY (s : List Char) : Option (Nat × Nat × Nat) :=
  match take2or1 s with
  | none => none
  | some (m, s1) =>
    match takeLit '/' s1 with
    | none => none
    | some s2 =>
      match take2or1 s2 with
      | none => none
      | some (d, s3) =>
        match takeLit '/' s3 with
        | none => none
        | some s4 =>
          match take4 s4 with
          | none => none
          | some (y, s5) => if s5.isEmpty then mkDate y m d else none

/-- Embeds `strptime(s, "%Y-%m-%d")`. -/
def fmtYmd (s : List Char) : Option (Nat × Nat × Nat) :=
  match take4 s with
  | none => none
  | some (y, s1) =>
    match takeLit '-' s1 with
    | none => none
    | some s2 =>
      match take2or1 s2 with
      | none => none
      | some (m, s3) =>
        match takeLit '-' s3 with
        | none => none
        | some s4 =>
          match take2or1 s4 with
          | none => none
          | some (d, s5) => if s5.isEmpty then mkDate y m d else none

/-- Embeds `strptime(s, "%d %B %Y")`. -/
def fmtDBY (s : List Char) : Option (Nat × Nat × Nat) :=
  match take2or1 s with
  | none => none
  | some (d, s1) =>
    match takeWs s1 with
    | none => none
    | some s2 =>
      match takeMonth s2 with
      | none => none
      | some (m, s3) =>
        match takeWs s3 with
        | none => none
        | some s4 =>
          match take4 s4 with
          | none => none
          | some (y, s5) => if s5.isEmpty then mkDate y m d else none

/-- Embeds `strptime(s, "%d-%m-%Y")`. -/
def fmtDmY (s : List Char) : Option (Nat × Nat × Nat) :=
  match take2or1 s with
  | none => none
  | some (d, s1) =>
    match takeLit '-' s1 with
    | none => none
    | some s2 =>
      match take2or1 s2 with
      | none => none
      | some (m, s3) =>
        match takeLit '-' s3 with
        | none => none
        | some s4 =>
          match take4 s4 with
          | none => none
          | some (y, s5) => if s5.isEmpty then mkDate y m d else none

/-- The format list of `_parse_date`, in source order. -/
def dateFormats : List (List Char → Option (Nat × Nat × Nat)) :=
  [fmtBdCY, fmtBdY, fmtMdY, fmtYmd, fmtDBY, fmtDmY]

/-- Zero-pad on the left to `k` characters. -/
def padZ (k : Nat) (s : List Char) : List Char :=
  List.replicate (k - s.length) '0' ++ s

/-- Embeds `dt.strftime("%Y-%m-%d")`: month and day are zero-padded to two
digits; the year is printed unpadded (the platform `strftime` behavior of
the reference implementation, visible only for years below 1000). -/
def canonicalDate (y m d : Nat) : String :=
  String.mk ((toString y).data ++ '-' :: padZ 2 (toString m).data ++
    '-' :: padZ 2 (toString d).data)

/-- Embeds `FieldExtractor._parse_date`: the first format that parses wins; every
failure (including an invalid calendar date) falls through to the next
format; `None` if all fail. -/
def _parse_date (s : List Char) : Option String :=
  dateFormats.findSome? fun f => (f s).map fun v => canonicalDate v.1 v.2.1 v.2.2

/-- The date-pattern list of `_extract_effective_date`, in source order,
each returning `match.group(1)` of its first match. -/
def dateCaps : List (List Char → Option (List Char)) :=
  [datePat1, datePat2, datePat3, datePat4]

/-- Embeds `FieldExtractor._extract_effective_date`: only `text[:3000]` is
searched; each pattern's first match is parsed, and a pattern whose match
fails to parse falls through to the next pattern. -/
def _extract_effective_date (t : List Char) : Option String :=
  dateCaps.findSome? fun pat => (pat (t.take 3000)).bind _parse_date

/-! ## Shape lemmas about the checks -/

theorem findId_one : findId 1 = "FIND-001" := by decide

theorem check_auto_shape (a : ContractAuditor) (t : List Char) (ed : ExtractionData)
    (pages : List Page) :
    ∀ f ∈ _check_auto_renewal a t ed pages, f.id = "FIND-001" ∧ f.type = "auto_renewal" := by
  intro f hf
  unfold _check_auto_renewal at hf
  split at hf
  · simp at hf
  · split at hf
    · split at hf
      · simp at hf; subst hf; exact ⟨findId_one, rfl⟩
      · split at hf
        · simp at hf; subst hf; exact ⟨findId_one, rfl⟩
        · simp at hf
    · simp at hf

theorem unlimLoop_shape (t : List Char) (pages : List Page) :
    ∀ f ∈ unlimLoop t pages, f.id = "FIND-001" ∧ f.type = "unlimited_liability" := by
  intro f hf
  unfold unlimLoop at hf
  split at hf
  · simp at hf; subst hf; exact ⟨findId_one, rfl⟩
  · simp at hf

theorem unlimLoop_length_le (t : List Char) (pages : List Page) :
    (unlimLoop t pages).length ≤ 1 := by
  unfold unlimLoop
  split <;> simp

theorem check_unlimited_shape (t : List Char) (ed : ExtractionData) (pages : List Page) :
    ∀ f ∈ _check_unlimited_liability t ed pages, f.id = "FIND-001" ∧ f.type = "unlimited_liability" := by
  intro f hf
  unfold _check_unlimited_liability at hf
  split at hf
  · rename_i hcond
    split at hf
    · rw [List.mem_append] at hf
      rcases hf with hf | hf
      · exact unlimLoop_shape t pages f hf
      · have hl : (unlimLoop t pages).length = 0 := by
          have := List.isEmpty_iff.mp (by
            have := hcond
            simp only [Bool.and_eq_true] at this
            exact this.2)
          simp [this]
        simp at hf; subst hf
        refine ⟨?_, rfl⟩
        rw [hl]
        exact findId_one
    · exact unlimLoop_shape t pages f hf
  · exact unlimLoop_shape t pages f hf

theorem check_broad_shape (t : List Char) (ed : ExtractionData) (pages : List Page) :
    ∀ f ∈ _check_broad_indemnity t ed pages, f.id = "FIND-001" ∧ f.type = "broad_indemnity" := by
  intro f hf
  unfold _check_broad_indemnity at hf
  split at hf
  · simp at hf
  · split at hf
    · split at hf
      · simp at hf; subst hf; exact ⟨findId_one, rfl⟩
      · simp at hf
    · simp at hf

theorem check_term_shape (t : List Char) (pages : List Page) :
    ∀ f ∈ _check_termination_convenience t pages,
      f.id = "FIND-001" ∧ f.type = "missing_termination_convenience" := by
  intro f hf
  unfold _check_termination_convenience at hf
  split at hf
  · simp at hf; subst hf; exact ⟨findId_one, rfl⟩
  · simp at hf

theorem check_cap_shape (a : ContractAuditor) (t : List Char) (ed : ExtractionData)
    (pages : List Page) :
    ∀ f ∈ _check_liability_cap a t ed pages, f.id = "FIND-001" ∧ f.type = "low_liability_cap" := by
  intro f hf
  unfold _check_liability_cap at hf
  split at hf
  · simp at hf
  · split at hf
    · simp at hf
    · split at hf
      · simp at hf; subst hf; exact ⟨findId_one, rfl⟩
      · simp at hf

/-- Findings whose type is a fixed string other than `ty` are dropped by a
filter on `ty`. -/
theorem filter_of_other_type {l : List AuditFinding} {ty other : String}
    (h : ∀ f ∈ l, f.id = "FIND-001" ∧ f.type = other) (hne : other ≠ ty) :
    l.filter (fun f => f.type == ty) = [] := by
  rw [List.filter_eq_nil_iff]
  intro f hf hc
  exact hne (by rw [← (h f hf).2]; exact (beq_iff_eq.mp (by simpa using hc)))

/-- Only the auto-renewal check contributes findings of type
`auto_renewal` to an audit run. -/
theorem audit_filter_auto (a : ContractAuditor) (t : List Char) (ed : ExtractionData)
    (pages : List Page) :
    (audit_contract a t ed pages).filter (fun f => f.type == "auto_renewal") =
      _check_auto_renewal a t ed pages := by
  unfold audit_contract
  rw [List.filter_append, List.filter_append, List.filter_append, List.filter_append]
  rw [filter_of_other_type (check_unlimited_shape t ed pages) (by decide)]
  rw [filter_of_other_type (check_broad_shape t ed pages) (by decide)]
  rw [filter_of_other_type (check_term_shape t pages) (by decide)]
  rw [filter_of_other_type (check_cap_shape a t ed pages) (by decide)]
  rw [List.filter_eq_self.mpr]
  · simp
  · intro f hf
    have := (check_auto_shape a t ed pages f hf).2
    simp [this]

/-- Case-sensitive literal prefix test. -/
def litPref : List Char → List Char → Bool
  | [], _ => true
  | _ :: _, [] => false
  | a :: aa, b :: bb => a == b && litPref aa bb

/-- Predicate `small in big` for strings (case-sensitive substring test). -/
def strContains (big small : List Char) : Bool :=
  (List.range (big.length + 1)).any fun i => litPref small (big.drop i)

/-- C10: a liability cap present with `amount = 0` yields zero findings from
the low-liability-cap check, although 0 is below the default threshold
50000: the Python truthiness test `if amount and amount < threshold` treats
a zero amount like an absent one. -/
theorem C10_zero_amount_no_finding (t : List Char) (pages : List Page)
    (ar : Option AutoRenewalD) (ind : Option IndemnityD) (cur : Option String) :
    _check_liability_cap defaultAuditor t ⟨ar, ind, some ⟨some 0, cur⟩⟩ pages = [] := by
  unfold _check_liability_cap
  simp

/-- C8: a liability cap of 10000 against the default threshold 50000 yields
exactly one LOW `low_liability_cap` finding whose summary carries the
thousands-separated amounts `$10,000` and `$50,000`. -/
theorem C8_low_cap_formatting (t : List Char) (pages : List Page)
    (ar : Option AutoRenewalD) (ind : Option IndemnityD) (cur : Option String) :
    _check_liability_cap defaultAuditor t ⟨ar, ind, some ⟨some 10000, cur⟩⟩ pages =
      [⟨"FIND-001", .LOW, "low_liability_cap",
        "Liability cap $10,000 is below recommended threshold $50,000",
        _find_evidence t pages [kwLiability, kwLimit]⟩] ∧
    strContains "Liability cap $10,000 is below recommended threshold $50,000".data
      "$10,000".data = true ∧
    strContains "Liability cap $10,000 is below recommended threshold $50,000".data
      "$50,000".data = true := by
  refine ⟨rfl, by decide, by decide⟩

/-- C3: when the full text matches an unlimited-liability pattern and the
extraction record has no liability cap, the unlimited-liability check emits
exactly the one HIGH `unlimited_liability` finding of the pattern branch —
the missing-cap branch is short-circuited by `not findings`. -/
theorem C3_unlimited_short_circuit (t : List Char) (pages : List Page)
    (ar : Option AutoRenewalD) (ind : Option IndemnityD)
    (h : unlimitedMatch t = true) :
    _check_unlimited_liability t ⟨ar, ind, none⟩ pages =
      [⟨"FIND-001", .HIGH, "unlimited_liability",
        "Contract contains unlimited liability clause",
        _find_evidence t pages [kwUnlimitedLiability, kwWithoutLimit]⟩] := by
  unfold _check_unlimited_liability unlimLoop
  rw [h]
  simp [findId_one]

def c3Text : List Char :=
  "Party shall have unlimited liability for all claims and damages.".data

theorem C3_unlimited_short_circuit_witness :
    unlimitedMatch c3Text = true ∧
    _check_unlimited_liability c3Text ⟨none, none, none⟩ [] =
      [⟨"FIND-001", .HIGH, "unlimited_liability",
        "Contract contains unlimited liability clause",
        _find_evidence c3Text [] [kwUnlimitedLiability, kwWithoutLimit]⟩] :=
  ⟨by decide, C3_unlimited_short_circuit c3Text [] none none (by decide)⟩

/-- C7: the broad-indemnity check is guarded by `indemnity.exists`: with the
flag true and a broad-indemnity pattern matching the text it emits exactly
one MEDIUM `broad_indemnity` finding, and with the flag false it emits
nothing even when the text pattern matches. -/
theorem C7_broad_indemnity_guard (t : List Char) (pages : List Page)
    (ar : Option AutoRenewalD) (cap : Option LiabilityCapD) (s : Option String) :
    (broadMatch t = true →
      _check_broad_indemnity t ⟨ar, some ⟨true, s⟩, cap⟩ pages =
        [⟨"FIND-001", .MEDIUM, "broad_indemnity",
          "Indemnity clause covers broad scope (all claims)",
          _find_evidence t pages [kwIndemnif, kwHoldHarmless]⟩]) ∧
    _check_broad_indemnity t ⟨ar, some ⟨false, s⟩, cap⟩ pages = [] := by
  constructor
  · intro h
    unfold _check_broad_indemnity
    rw [h]
    simp [findId_one]
  · unfold _check_broad_indemnity
    simp

def c7Text : List Char := "Vendor shall indemnify Client against all claims.".data

theorem C7_broad_indemnity_guard_witness :
    broadMatch c7Text = true ∧
    _check_broad_indemnity c7Text ⟨none, some ⟨true, none⟩, none⟩ [] =
      [⟨"FIND-001", .MEDIUM, "broad_indemnity",
        "Indemnity clause covers broad scope (all claims)",
        _find_evidence c7Text [] [kwIndemnif, kwHoldHarmless]⟩] ∧
    _check_broad_indemnity c7Text ⟨none, some ⟨false, none⟩, none⟩ [] = [] := by
  have h := C7_broad_indemnity_guard c7Text [] none none none
  exact ⟨by decide, h.1 (by decide), h.2⟩

/-- C6: with `auto_renewal.exists = true` and the default notice threshold
30, a full audit yields: for a 15-day notice period exactly one HIGH
`auto_renewal` finding naming 15 and 30 days; for a 60-day notice period no
`auto_renewal` finding; and for an unset notice period exactly one HIGH
"unclear notice period" finding. -/
theorem C6_auto_renewal_threshold (t : List Char) (pages : List Page)
    (ind : Option IndemnityD) (cap : Option LiabilityCapD) :
    (audit_contract defaultAuditor t ⟨some ⟨true, some 15⟩, ind, cap⟩ pages).filter
        (fun f => f.type == "auto_renewal") =
      [⟨"FIND-001", .HIGH, "auto_renewal",
        "Auto-renewal with 15 days notice (less than 30 days)",
        _find_evidence t pages [kwAutoRenew, kwAutomaticRenewal]⟩] ∧
    (audit_contract defaultAuditor t ⟨some ⟨true, some 60⟩, ind, cap⟩ pages).filter
        (fun f => f.type == "auto_renewal") = [] ∧
    (audit_contract defaultAuditor t ⟨some ⟨true, none⟩, ind, cap⟩ pages).filter
        (fun f => f.type == "auto_renewal") =
      [⟨"FIND-001", .HIGH, "auto_renewal",
        "Auto-renewal clause with unclear notice period",
        _find_evidence t pages [kwAutoRenew, kwAutomaticRenewal]⟩] := by
  refine ⟨?_, ?_, ?_⟩ <;> rw [audit_filter_auto] <;> rfl

/-- Each check starts its own local `findings` list at empty and computes
ids as `FIND-{len(findings)+1:03d}`, so every finding of a whole audit run
carries the id `FIND-001`. -/
theorem C1_ids_per_check (a : ContractAuditor) (t : List Char) (ed : ExtractionData)
    (pages : List Page) :
    (audit_contract a t ed pages).all (fun f => f.id == "FIND-001") = true := by
  rw [List.all_eq_true]
  intro f hf
  unfold audit_contract at hf
  simp only [List.mem_append] at hf
  have hid : f.id = "FIND-001" := by
    rcases hf with (((h | h) | h) | h) | h
    · exact (check_auto_shape a t ed pages f h).1
    · exact (check_unlimited_shape t ed pages f h).1
    · exact (check_broad_shape t ed pages f h).1
    · exact (check_term_shape t pages f h).1
    · exact (check_cap_shape a t ed pages f h).1
  simp [hid]

def c1Text : List Char := "unlimited liability auto-renew".data

def c1Ed : ExtractionData := ⟨some ⟨true, none⟩, none, none⟩

/-- An audit run with three findings whose ids coincide (all `FIND-001`):
the ids are neither pairwise distinct nor numbered `FIND-001 … FIND-003`. -/
theorem C1_ids_counterexample :
    ((audit_contract defaultAuditor c1Text c1Ed []).map (fun f => f.id) =
      ["FIND-001", "FIND-001", "FIND-001"]) ∧
    ¬ ((audit_contract defaultAuditor c1Text c1Ed []).map (fun f => f.id)).Nodup := by
  have h : (audit_contract defaultAuditor c1Text c1Ed []).map (fun f => f.id) =
      ["FIND-001", "FIND-001", "FIND-001"] := by decide
  rw [h]
  exact ⟨rfl, by decide⟩

/-! ## The evidence locator's keyword loop (C4, C9) -/

theorem findEvAux_nil_of_all (t : List Char) (pages : List Page) :
    ∀ kws, (∀ kw ∈ kws, kwMatches t kw = []) → findEvAux t pages kws = [] := by
  intro kws
  induction kws with
  | nil => intro _; rfl
  | cons kw rest ih =>
    intro h
    unfold findEvAux
    rw [h kw (List.mem_cons_self kw rest)]
    simp only [List.take_nil, List.map_nil, List.isEmpty_nil, if_true]
    exact ih (fun k hk => h k (List.mem_cons_of_mem _ hk))

theorem findEvAux_first_match (t : List Char) (pages : List Page) :
    ∀ pre kw post, (∀ k ∈ pre, kwMatches t k = []) → kwMatches t kw ≠ [] →
      findEvAux t pages (pre ++ kw :: post) =
        ((kwMatches t kw).take 2).map (mkEvidence t pages) := by
  intro pre
  induction pre with
  | nil =>
    intro kw post _ hne
    rw [List.nil_append]
    cases hl : kwMatches t kw with
    | nil => exact absurd hl hne
    | cons x xs =>
      unfold findEvAux
      rw [hl]
      simp
  | cons k rest ih =>
    intro kw post h hne
    have h0 : kwMatches t k = [] := h k (List.mem_cons_self k rest)
    rw [List.cons_append]
    unfold findEvAux
    rw [h0]
    simp only [List.take_nil, List.map_nil, List.isEmpty_nil, if_true]
    exact ih kw post (fun k' hk => h k' (List.mem_cons_of_mem _ hk)) hne

/-- C4: the evidence locator returns at most 3 spans; with no keyword
matching it returns the empty list; and all spans come from the first 2
`finditer` matches of the first keyword (in list order) that matches at
all — later keywords are never consulted. -/
theorem C4_first_keyword_wins (t : List Char) (pages : List Page)
    (kws : List (List Char)) :
    (_find_evidence t pages kws).length ≤ 3 ∧
    ((∀ kw ∈ kws, kwMatches t kw = []) → _find_evidence t pages kws = []) ∧
    (∀ pre kw post, kws = pre ++ kw :: post →
      (∀ k ∈ pre, kwMatches t k = []) → kwMatches t kw ≠ [] →
      _find_evidence t pages kws =
        ((kwMatches t kw).take 2).map (mkEvidence t pages)) := by
  refine ⟨?_, ?_, ?_⟩
  · unfold _find_evidence
    rw [List.length_take]
    exact Nat.min_le_left _ _
  · intro h
    unfold _find_evidence
    rw [findEvAux_nil_of_all t pages kws h]
    rfl
  · intro pre kw post hsplit hpre hne
    unfold _find_evidence
    rw [hsplit, findEvAux_first_match t pages pre kw post hpre hne]
    apply List.take_of_length_le
    rw [List.length_map, List.length_take]
    exact le_trans (Nat.min_le_left _ _) (by omega)

def c4Text : List Char := "a liability clause, liability again".data

theorem C4_first_keyword_wins_witness :
    kwMatches c4Text "zzz".data = [] ∧
    kwMatches c4Text "liability".data ≠ [] ∧
    _find_evidence c4Text [] ["zzz".data, "liability".data] =
      ((kwMatches c4Text "liability".data).take 2).map (mkEvidence c4Text []) := by
  have h := (C4_first_keyword_wins c4Text [] ["zzz".data, "liability".data]).2.2
    ["zzz".data] "liability".data [] rfl
  refine ⟨by decide, by decide, h ?_ ?_⟩
  · intro k hk
    simp at hk
    rw [hk]
    decide
  · decide

/-! ## Engine lemmas: matches of the evidence pattern stay on one line -/

theorem take_of_takeWhile_class (f : Char → Bool) : ∀ (l : List Char) (n : Nat),
    n ≤ (l.takeWhile f).length → ∀ c ∈ l.take n, f c = true := by
  intro l
  induction l with
  | nil => intro n _ c hc; simp at hc
  | cons x xs ih =>
    intro n hn c hc
    cases n with
    | zero => simp at hc
    | succ m =>
      rw [List.takeWhile_cons] at hn
      by_cases hfx : f x = true
      · rw [if_pos hfx] at hn
        rw [List.length_cons] at hn
        rw [List.take_succ_cons] at hc
        rcases List.mem_cons.mp hc with rfl | hc
        · exact hfx
        · exact ih m (by omega) c hc
      · rw [if_neg hfx] at hn
        simp at hn

theorem mem_repC {f : Char → Bool} {lo hi : Nat} {t : List Char} {p e : Nat}
    (h : e ∈ repC f lo hi t p) :
    p + lo ≤ e ∧ e ≤ p + min hi (clsRun f t p) := by
  unfold repC at h
  split at h
  · simp at h
  · rename_i hcond
    simp only [List.mem_map, List.mem_range] at h
    obtain ⟨i, hi2, rfl⟩ := h
    omega

theorem nonNl_ne (c : Char) (h : nonNl c = true) : c ≠ '\n' := by
  simp [nonNl] at h
  exact h

theorem repC_slice {f : Char → Bool} (hf : ∀ c, f c = true → c ≠ '\n')
    {lo hi : Nat} {t : List Char} {p e : Nat} (h : e ∈ repC f lo hi t p) :
    ∀ c ∈ listSlice t p e, c ≠ '\n' := by
  intro c hc
  have hb := mem_repC h
  refine hf c (take_of_takeWhile_class f (t.drop p) (e - p) ?_ c hc)
  have hr : clsRun f t p = ((t.drop p).takeWhile f).length := rfl
  omega

theorem mem_litC {s t : List Char} {p e : Nat} (h : e ∈ litC s t p) :
    e = p + s.length ∧ ciPref s (t.drop p) = true := by
  unfold litC at h
  split at h
  · rename_i hp
    simp at h
    exact ⟨h, hp⟩
  · simp at h

theorem ciPref_take_mem : ∀ (s l : List Char), ciPref s l = true →
    ∀ c ∈ l.take s.length, c.toLower ∈ s.map Char.toLower := by
  intro s
  induction s with
  | nil => intro l _ c hc; simp at hc
  | cons a aa ih =>
    intro l h c hc
    cases l with
    | nil => simp at hc
    | cons b bb =>
      rw [ciPref] at h
      simp only [Bool.and_eq_true] at h
      rw [List.length_cons, List.take_succ_cons] at hc
      rcases List.mem_cons.mp hc with rfl | hc
      · have hab : a.toLower = c.toLower := by
          have h1 := h.1
          unfold ciEqCh at h1
          exact beq_iff_eq.mp h1
        rw [← hab]
        exact List.mem_map_of_mem _ (List.mem_cons_self a aa)
      · exact List.mem_cons_of_mem _ (ih bb h.2 c hc)

theorem litC_slice {s : List Char} (hs : '\n' ∉ s.map Char.toLower)
    {t : List Char} {p e : Nat} (h : e ∈ litC s t p) :
    ∀ c ∈ listSlice t p e, c ≠ '\n' := by
  obtain ⟨rfl, hp⟩ := mem_litC h
  intro c hc hcn
  subst hcn
  have hsl : listSlice t p (p + s.length) = (t.drop p).take s.length := by
    unfold listSlice
    congr 1
    omega
  rw [hsl] at hc
  have hmem := ciPref_take_mem s (t.drop p) hp _ hc
  rw [show ('\n').toLower = '\n' from by decide] at hmem
  exact hs hmem

theorem slice_split {t : List Char} {p q e : Nat} (h1 : p ≤ q) (h2 : q ≤ e) :
    listSlice t p e = listSlice t p q ++ listSlice t q e := by
  unfold listSlice
  rw [show e - p = (q - p) + (e - q) by omega, List.take_add, List.drop_drop]
  rw [show p + (q - p) = q by omega]

theorem noNl_glue {t : List Char} {p q e : Nat} (h1 : p ≤ q) (h2 : q ≤ e)
    (ha : ∀ c ∈ listSlice t p q, c ≠ '\n') (hb : ∀ c ∈ listSlice t q e, c ≠ '\n') :
    ∀ c ∈ listSlice t p e, c ≠ '\n' := by
  rw [slice_split h1 h2]
  intro c hc
  rcases List.mem_append.mp hc with h | h
  · exact ha c h
  · exact hb c h

/-- Any match of the evidence pattern spans only non-newline characters,
provided the keyword itself has none (which holds for every keyword the
auditor passes). -/
theorem evCmb_slice {kw : List Char} (hkw : '\n' ∉ kw.map Char.toLower)
    {t : List Char} {p e : Nat} (h : e ∈ evCmb kw t p) :
    p ≤ e ∧ ∀ c ∈ listSlice t p e, c ≠ '\n' := by
  unfold evCmb seqC at h
  simp only [List.mem_flatMap] at h
  obtain ⟨q1, hq1, he⟩ := h
  obtain ⟨q0, hq0, hq1lit⟩ := hq1
  have h0 := mem_repC hq0
  obtain ⟨hq1eq, _⟩ := mem_litC hq1lit
  have h2 := mem_repC he
  have s0 : ∀ c ∈ listSlice t p q0, c ≠ '\n' := repC_slice nonNl_ne hq0
  have s1 : ∀ c ∈ listSlice t q0 q1, c ≠ '\n' := litC_slice hkw hq1lit
  have s2 : ∀ c ∈ listSlice t q1 e, c ≠ '\n' := repC_slice nonNl_ne he
  have hpq0 : p ≤ q0 := by omega
  have hq0q1 : q0 ≤ q1 := by omega
  have hq1e : q1 ≤ e := by omega
  exact ⟨by omega,
    noNl_glue hpq0 (by omega) s0 (noNl_glue hq0q1 hq1e s1 s2)⟩

theorem searchFromAux_mem {c : Cmb} {t : List Char} :
    ∀ {f s p e : Nat}, searchFromAux c t f s = some (p, e) → e ∈ c t p := by
  intro f
  induction f with
  | zero => intro s p e h; simp [searchFromAux] at h
  | succ n ih =>
    intro s p e h
    rw [searchFromAux] at h
    cases hh : (c t s).head? with
    | some e' =>
      rw [hh] at h
      injection h with h1
      obtain ⟨ys, hys⟩ := List.head?_eq_some_iff.mp hh
      injection h1 with hp he
      subst hp
      subst he
      rw [hys]
      exact List.mem_cons_self _ _
    | none =>
      rw [hh] at h
      exact ih h

theorem allMatchesAux_mem {c : Cmb} {t : List Char} :
    ∀ (f s : Nat) {p e : Nat}, (p, e) ∈ allMatchesAux c t f s → e ∈ c t p := by
  intro f
  induction f with
  | zero => intro s p e h; simp [allMatchesAux] at h
  | succ n ih =>
    intro s p e h
    rw [allMatchesAux] at h
    cases hh : searchFrom c t s with
    | none => rw [hh] at h; simp at h
    | some m =>
      rw [hh] at h
      rcases List.mem_cons.mp h with heq | hmem
      · obtain ⟨p', e'⟩ := m
        injection heq with hp he
        subst hp
        subst he
        unfold searchFrom at hh
        exact searchFromAux_mem hh
      · exact ih _ hmem

theorem kwMatches_mem {t kw : List Char} {p e : Nat} (h : (p, e) ∈ kwMatches t kw) :
    e ∈ evCmb kw t p := by
  unfold kwMatches allMatchesC at h
  exact allMatchesAux_mem _ _ h

theorem findEvAux_excerpts {t : List Char} {pages : List Page} :
    ∀ kws, (∀ kw ∈ kws, '\n' ∉ kw.map Char.toLower) →
      ∀ ev ∈ findEvAux t pages kws,
        ev.excerpt = listSlice t ev.char_start ev.char_end ∧ '\n' ∉ ev.excerpt := by
  intro kws
  induction kws with
  | nil => intro _ ev hev; simp [findEvAux] at hev
  | cons kw rest ih =>
    intro hk ev hev
    unfold findEvAux at hev
    split at hev
    · exact ih (fun k hk' => hk k (List.mem_cons_of_mem _ hk')) ev hev
    · obtain ⟨m, hm, rfl⟩ := List.mem_map.mp hev
      obtain ⟨p, e⟩ := m
      have hmm : (p, e) ∈ kwMatches t kw := List.mem_of_mem_take hm
      have hev2 := evCmb_slice (hk kw (List.mem_cons_self kw rest)) (kwMatches_mem hmm)
      refine ⟨rfl, ?_⟩
      intro hnl
      exact hev2.2 '\n' hnl rfl

/-- C9: every returned evidence span's excerpt is exactly
`full_text[char_start:char_end]` and contains no newline: the up-to-100
character context windows stop at line boundaries (for the newline-free
keywords the auditor uses). -/
theorem C9_excerpt_no_newline (t : List Char) (pages : List Page)
    (kws : List (List Char)) (hkws : ∀ kw ∈ kws, '\n' ∉ kw.map Char.toLower) :
    ∀ ev ∈ _find_evidence t pages kws,
      ev.excerpt = listSlice t ev.char_start ev.char_end ∧ '\n' ∉ ev.excerpt := by
  intro ev hev
  unfold _find_evidence at hev
  exact findEvAux_excerpts kws hkws ev (List.mem_of_mem_take hev)

def c9Text : List Char := "risk\nthe liability cap\nmore".data

theorem C9_excerpt_no_newline_witness :
    ('\n' ∉ ("liability".data.map Char.toLower)) ∧
    (⟨1, 5, 22, "the liability cap".data⟩ : EvidenceSpan) ∈
      _find_evidence c9Text [] ["liability".data] ∧
    "the liability cap".data = listSlice c9Text 5 22 ∧
    '\n' ∉ "the liability cap".data := by
  refine ⟨by decide, by decide, ?_⟩
  have h := C9_excerpt_no_newline c9Text [] ["liability".data]
    (by intro kw hk; simp at hk; rw [hk]; decide)
    ⟨1, 5, 22, "the liability cap".data⟩ (by decide)
  exact h

/-! ## C2: the labeled payment pattern returns the whole match -/

theorem mem_plusC {f : Char → Bool} {t : List Char} {p e : Nat}
    (h : e ∈ plusC f t p) : p + 1 ≤ e ∧ e ≤ p + clsRun f t p := by
  unfold plusC at h
  simp only [List.mem_map, List.mem_range] at h
  obtain ⟨i, hi, rfl⟩ := h
  omega

theorem ciPref_take {s l : List Char} {n : Nat} (h : ciPref s l = true)
    (hn : s.length ≤ n) : ciPref s (l.take n) = true := by
  induction s generalizing l n with
  | nil => rfl
  | cons a aa ih =>
    cases l with
    | nil =>
      rw [ciPref] at h
      exact absurd h (by simp)
    | cons b bb =>
      cases n with
      | zero => simp at hn
      | succ m =>
        rw [List.take_succ_cons]
        rw [ciPref] at h ⊢
        simp only [Bool.and_eq_true] at h ⊢
        refine ⟨h.1, ih h.2 ?_⟩
        rw [List.length_cons] at hn
        omega

theorem pay1At_facts {t : List Char} {p q e : Nat} (h : pay1At t p = some (q, e)) :
    p + 13 ≤ q ∧ q + 10 ≤ e ∧ ciPref "payment term".data (t.drop p) = true := by
  unfold pay1At at h
  obtain ⟨q', hq'mem, hfn⟩ := List.exists_of_findSome?_eq_some h
  cases hc : (pay1Cap t q').head? with
  | none =>
    rw [hc] at hfn
    exact absurd hfn (by simp)
  | some e' =>
    rw [hc] at hfn
    simp only [Option.some.injEq, Prod.mk.injEq] at hfn
    obtain ⟨hq, he⟩ := hfn
    have hcapmem : e' ∈ pay1Cap t q' := by
      obtain ⟨ys, hys⟩ := List.head?_eq_some_iff.mp hc
      rw [hys]
      exact List.mem_cons_self _ _
    have hcap := mem_repC hcapmem
    unfold pay1Pre seqC at hq'mem
    simp only [List.mem_flatMap] at hq'mem
    obtain ⟨b, hb, hqplus⟩ := hq'mem
    obtain ⟨a, ha, hbopt⟩ := hb
    obtain ⟨haeq, haci⟩ := mem_litC ha
    have hblb : a ≤ b := by
      unfold optC at hbopt
      rcases List.mem_append.mp hbopt with hb1 | hb1
      · have := (mem_litC hb1).1
        omega
      · simp at hb1
        omega
    have hqlb := mem_plusC hqplus
    have h12 : a = p + 12 := by simpa using haeq
    have hpre : ciPref "payment term".data (t.drop p) = true := haci
    refine ⟨by omega, by omega, hpre⟩

theorem pay1SearchAux_at {t : List Char} :
    ∀ {f s p q e : Nat}, pay1SearchAux t f s = some (p, q, e) →
      pay1At t p = some (q, e) := by
  intro f
  induction f with
  | zero => intro s p q e h; simp [pay1SearchAux] at h
  | succ n ih =>
    intro s p q e h
    rw [pay1SearchAux] at h
    cases hh : pay1At t s with
    | some m =>
      rw [hh] at h
      obtain ⟨q', e'⟩ := m
      injection h with h1
      injection h1 with hp h2
      injection h2 with hq he
      subst hp
      subst hq
      subst he
      exact hh
    | none =>
      rw [hh] at h
      exact ih h

/-- C2 (amended): whenever the labeled pattern
`payment terms?[:\s]+([^\n.]{10,100})` matches, extraction returns the
whole matched text `group(0)` (stripped), which starts with the
case-insensitive label `payment term`; the claimed capture group is the
strictly shorter tail starting at least 13 characters into the match. -/
theorem C2_payment_terms_whole_match (t : List Char) (p q e : Nat)
    (h : pay1Search t = some (p, q, e)) :
    _extract_payment_terms t = some (pyStrip (listSlice t p e)) ∧
    ciPref "payment term".data (listSlice t p e) = true ∧
    p + 13 ≤ q ∧ q + 10 ≤ e := by
  have hAt : pay1At t p = some (q, e) := pay1SearchAux_at h
  obtain ⟨h1, h2, h3⟩ := pay1At_facts hAt
  refine ⟨?_, ?_, h1, h2⟩
  · unfold _extract_payment_terms
    rw [h]
  · exact ciPref_take h3 (by simp; omega)

def c2Text : List Char := "payment terms: pay within 45 days of invoice".data

theorem C2_payment_terms_whole_match_witness :
    pay1Search c2Text = some (0, 15, 44) ∧
    (_extract_payment_terms c2Text = some (pyStrip (listSlice c2Text 0 44)) ∧
      ciPref "payment term".data (listSlice c2Text 0 44) = true ∧
      0 + 13 ≤ 15 ∧ 15 + 10 ≤ 44) :=
  ⟨by decide, C2_payment_terms_whole_match c2Text 0 15 44 (by decide)⟩

/-- The labeled pattern matches `c2Text` with capture
`pay within 45 days of invoice` (offsets 15–44), yet extraction returns
the whole matched text including the label — not the capture group. -/
theorem C2_payment_terms_counterexample :
    pay1Search c2Text = some (0, 15, 44) ∧
    _extract_payment_terms c2Text =
      some "payment terms: pay within 45 days of invoice".data ∧
    listSlice c2Text 15 44 = "pay within 45 days of invoice".data ∧
    _extract_payment_terms c2Text ≠ some "pay within 45 days of invoice".data := by
  exact ⟨by decide, by decide, by decide, by decide⟩

/-! ## C5: effective-date extraction -/

theorem mkDate_ok2 {y m d : Nat} {v : Nat × Nat × Nat} (h : mkDate y m d = some v) :
    dateOk v.1 v.2.1 v.2.2 = true := by
  unfold mkDate at h
  split at h
  · rename_i hok
    injection h with h1
    subst h1
    exact hok
  · simp at h

theorem fmtBdCY_ok : ∀ {s : List Char} {v : Nat × Nat × Nat},
    fmtBdCY s = some v → dateOk v.1 v.2.1 v.2.2 = true := by
  intro s v h
  unfold fmtBdCY at h
  repeat' split at h
  all_goals first
    | exact mkDate_ok2 h
    | simp at h

theorem fmtBdY_ok : ∀ {s : List Char} {v : Nat × Nat × Nat},
    fmtBdY s = some v → dateOk v.1 v.2.1 v.2.2 = true := by
  intro s v h
  unfold fmtBdY at h
  repeat' split at h
  all_goals first
    | exact mkDate_ok2 h
    | simp at h

theorem fmtMdY_ok : ∀ {s : List Char} {v : Nat × Nat × Nat},
    fmtMdY s = some v → dateOk v.1 v.2.1 v.2.2 = true := by
  intro s v h
  unfold fmtMdY at h
  repeat' split at h
  all_goals first
    | exact mkDate_ok2 h
    | simp at h

theorem fmtYmd_ok : ∀ {s : List Char} {v : Nat × Nat × Nat},
    fmtYmd s = some v → dateOk v.1 v.2.1 v.2.2 = true := by
  intro s v h
  unfold fmtYmd at h
  repeat' split at h
  all_goals first
    | exact mkDate_ok2 h
    | simp at h

theorem fmtDBY_ok : ∀ {s : List Char} {v : Nat × Nat × Nat},
    fmtDBY s = some v → dateOk v.1 v.2.1 v.2.2 = true := by
  intro s v h
  unfold fmtDBY at h
  repeat' split at h
  all_goals first
    | exact mkDate_ok2 h
    | simp at h

theorem fmtDmY_ok : ∀ {s : List Char} {v : Nat × Nat × Nat},
    fmtDmY s = some v → dateOk v.1 v.2.1 v.2.2 = true := by
  intro s v h
  unfold fmtDmY at h
  repeat' split at h
  all_goals first
    | exact mkDate_ok2 h
    | simp at h

theorem dateFormats_ok : ∀ f ∈ dateFormats, ∀ {s : List Char} {v : Nat × Nat × Nat},
    f s = some v → dateOk v.1 v.2.1 v.2.2 = true := by
  intro f hf
  simp only [dateFormats, List.mem_cons, List.not_mem_nil, or_false] at hf
  rcases hf with rfl | rfl | rfl | rfl | rfl | rfl
  · exact fmtBdCY_ok
  · exact fmtBdY_ok
  · exact fmtMdY_ok
  · exact fmtYmd_ok
  · exact fmtDBY_ok
  · exact fmtDmY_ok

theorem parse_date_canonical {s : List Char} {out : String}
    (h : _parse_date s = some out) :
    ∃ y m d, dateOk y m d = true ∧ out = canonicalDate y m d := by
  unfold _parse_date at h
  obtain ⟨f, hf, hfs⟩ := List.exists_of_findSome?_eq_some h
  cases hv : f s with
  | none =>
    rw [hv] at hfs
    simp at hfs
  | some v =>
    obtain ⟨y, m, d⟩ := v
    rw [hv] at hfs
    simp only [Option.map_some', Option.some.injEq] at hfs
    exact ⟨y, m, d, dateFormats_ok f hf hv, hfs.symm⟩

/-- C5 (amended): the extracted effective date depends only on the first
3000 characters of the text (a date appearing only later is never found),
and every returned value is the canonical `YYYY-MM-DD` rendering of a
calendar-valid date; but a matched string that parses under no format
makes the code fall through to the *next pattern* rather than leaving the
field absent. -/
theorem C5_effective_date_window_and_format :
    (∀ t : List Char, _extract_effective_date t = _extract_effective_date (t.take 3000)) ∧
    (∀ (t : List Char) (out : String), _extract_effective_date t = some out →
      ∃ y m d, dateOk y m d = true ∧ out = canonicalDate y m d) := by
  constructor
  · intro t
    unfold _extract_effective_date
    rw [List.take_take]
    norm_num
  · intro t out h
    unfold _extract_effective_date at h
    obtain ⟨pat, hpat, hpo⟩ := List.exists_of_findSome?_eq_some h
    cases hc : pat (t.take 3000) with
    | none =>
      rw [hc] at hpo
      simp at hpo
    | some cap =>
      rw [hc] at hpo
      exact parse_date_canonical hpo

def c5Text : List Char := "effective date: January 15, 2024".data

theorem C5_effective_date_window_and_format_witness :
    _extract_effective_date c5Text = some "2024-01-15" ∧
    (∃ y m d, dateOk y m d = true ∧ ("2024-01-15" : String) = canonicalDate y m d) :=
  ⟨by decide,
    C5_effective_date_window_and_format.2 c5Text "2024-01-15" (by decide)⟩

def c5CexText : List Char := "effective date: Foober 12, 2024 and 2024-03-05".data

/-- The first date pattern matches `c5CexText` with capture
`Foober 12, 2024`, which parses under none of the six formats; the claim
then demands an absent field, but the code falls through and the fourth
pattern yields `2024-03-05`. -/
theorem C5_effective_date_counterexample :
    datePat1 (c5CexText.take 3000) = some "Foober 12, 2024".data ∧
    _parse_date "Foober 12, 2024".data = none ∧
    _extract_effective_date c5CexText = some "2024-03-05" := by
  exact ⟨by decide, by decide, by decide⟩
